import Mathlib

/-!
Verification of the expression-state engine of `script.js` (a simple +
scientific calculator).  The engine is shallowly embedded: the mutable
`state.expr` becomes an explicit `String` argument/result, JavaScript
numbers are modelled as exact rationals (`ℚ`) extended with the IEEE
special values `Infinity`, `-Infinity` and `NaN` (`JsNum`), and the host
primitives (`parseFloat`, `Number.prototype.toString`, `toFixed`) are
modelled as exact decimal conversions on those rationals.  Transcendental
`Math.*` functions (sin, cos, ln, ...) are kept abstract as an explicit
parameter, since the claims about them are purely structural.
`showError` only flips a transient display flag and never mutates
`state.expr` synchronously, so an operation's outcome is modelled as the
pair (new expression text, optional raised error).
-/

namespace DynCalc

/-- Error taxonomy of the engine: `showError("Invalid characters")`,
`showError("Math error")`, `showError("Invalid")`, `showError("Error")`. -/
inductive CalcError where
  | invalidChars
  | mathError
  | invalidArg
  | genericError
deriving DecidableEq, Repr

/-- JavaScript number model: an exact rational, or one of the special
values `Infinity`, `-Infinity`, `NaN`. -/
inductive JsNum where
  | fin : ℚ → JsNum
  | pinf
  | ninf
  | nan
deriving DecidableEq, Repr

/-! ## The trailing-token splitter

`negateLastNumber`, `percentLastNumber` and `applySciFunction` all split
the expression with the regex `/(.*?)(-?\d*\.?\d*)$/`: the lazy first
group makes the second group the longest suffix fully matching
`-?\d*\.?\d*` (optional minus, digits, optional dot, digits).  We
implement that by a right-to-left scan over the reversed character list:
a maximal digit run, then an optional dot, a second maximal digit run,
and an optional minus. -/

/-- Scan of the reversed expression: returns (reversed token, reversed
rest), where the token is the longest suffix of the original string
matching `-?\d*\.?\d*`. -/
def splitRev (r : List Char) : List Char × List Char :=
  match r.dropWhile Char.isDigit with
  | '.' :: r2 =>
      match r2.dropWhile Char.isDigit with
      | '-' :: r4 =>
          (r.takeWhile Char.isDigit ++ '.' :: (r2.takeWhile Char.isDigit ++ ['-']), r4)
      | _ =>
          (r.takeWhile Char.isDigit ++ '.' :: r2.takeWhile Char.isDigit,
           r2.dropWhile Char.isDigit)
  | '-' :: r4 => (r.takeWhile Char.isDigit ++ ['-'], r4)
  | _ => (r.takeWhile Char.isDigit, r.dropWhile Char.isDigit)

/-- The Token Accessor: split the expression into (everything before the
trailing number, trailing number).  The regex always matches (all parts
are optional), so the JS guard `if (!m) return` is dead code; absence of
a trailing number is the empty second component. -/
def splitTrailing (e : String) : String × String :=
  (⟨((splitRev e.data.reverse).2).reverse⟩, ⟨((splitRev e.data.reverse).1).reverse⟩)

/-! ## Decimal parsing and printing (the `parseFloat` / `toString` model) -/

/-- Numeric value of the character of a decimal digit. -/
def digitVal (c : Char) : ℕ := c.toNat - 48

/-- Value of a list of decimal digit characters, most significant first. -/
def digitsVal (l : List Char) : ℕ := l.foldl (fun n c => 10 * n + digitVal c) 0

/-- Fractional digit run after the integer part: a leading `'.'`
followed by digits, else nothing. -/
def fracPart (l1 : List Char) : List Char :=
  match l1 with
  | '.' :: r2 => r2.takeWhile Char.isDigit
  | _ => []

/-- Model of `parseFloat` on an unsigned token `\d*\.?\d*`: `NaN` (here
`none`) when there is no digit at all, else the exact decimal value.
(`parseFloat` parses a maximal numeric prefix; on the pattern-shaped
tokens produced by the splitter the two agree.) -/
def parseUnsigned (l : List Char) : Option ℚ :=
  if l.takeWhile Char.isDigit = [] ∧ fracPart (l.dropWhile Char.isDigit) = [] then
    none
  else
    some ((digitsVal (l.takeWhile Char.isDigit) : ℚ) +
      (digitsVal (fracPart (l.dropWhile Char.isDigit)) : ℚ) /
        10 ^ (fracPart (l.dropWhile Char.isDigit)).length)

/-- Model of `parseFloat` on a trailing token: optional sign then
unsigned decimal; `none` models `NaN`. -/
def parseTok (t : String) : Option ℚ :=
  match t.data with
  | '-' :: r => (parseUnsigned r).map (fun q => -q)
  | r => parseUnsigned r

/-- Character of a decimal digit value. -/
def digitChar (d : ℕ) : Char :=
  if d = 0 then '0' else if d = 1 then '1' else if d = 2 then '2'
  else if d = 3 then '3' else if d = 4 then '4' else if d = 5 then '5'
  else if d = 6 then '6' else if d = 7 then '7' else if d = 8 then '8' else '9'

/-- Decimal digits of `n`, most significant first (fueled; empty for 0). -/
def natDigits : ℕ → ℕ → List Char
  | 0, _ => []
  | f + 1, n => if n = 0 then [] else natDigits f (n / 10) ++ [digitChar (n % 10)]

/-- Decimal string of a natural number (model of integer `toString`). -/
def natToString (n : ℕ) : String :=
  if n = 0 then "0" else ⟨natDigits (n + 1) n⟩

/-- Left-pad a string with zeros to length `k`. -/
def padLeftZeros (s : String) (k : ℕ) : String :=
  (⟨List.replicate (k - s.length) '0'⟩ : String) ++ s

/-- Least `k` (starting at `k0`, up to the fuel) with `den ∣ 10 ^ k`. -/
def find10ExpAux : ℕ → ℕ → ℕ → ℕ
  | 0, _, k => k
  | f + 1, den, k => if den ∣ 10 ^ k then k else find10ExpAux f den (k + 1)

/-- Least `k ≤ 400` with `den ∣ 10 ^ k` (400 if there is none; every
denominator arising here divides `10 ^ 12`). -/
def find10Exp (den : ℕ) : ℕ := find10ExpAux 400 den 0

/-- Minimal decimal string of a nonnegative rational with terminating
decimal expansion (model of `Number.prototype.toString`, which prints
the shortest decimal that round-trips).  The exponent is minimal, so the
last printed decimal is nonzero and no trailing zeros appear. -/
def ratToStringPos (q : ℚ) : String :=
  let k := find10Exp q.den
  if k = 0 then natToString q.num.toNat
  else
    let n := (q * (10 : ℚ) ^ k).num.toNat
    natToString (n / 10 ^ k) ++ "." ++ padLeftZeros (natToString (n % 10 ^ k)) k

/-- Model of `Number.prototype.toString` on the rational model. -/
def ratToString (q : ℚ) : String :=
  if q < 0 then "-" ++ ratToStringPos (-q) else ratToStringPos q

/-- Model of `x.toFixed(12)` followed by `parseFloat`: round to 12
decimal places, half toward `+∞` (the ECMAScript `toFixed` tie rule
"pick the larger n"). -/
def round12 (q : ℚ) : ℚ := (⌊q * 10 ^ 12 + 1 / 2⌋ : ℚ) / 10 ^ 12

/-- `formatResult` (scientific variant, `toFixed(12)`):
`if (Number.isInteger(n)) return n.toString();`
`return parseFloat(n.toFixed(12)).toString();` -/
def formatResult (n : ℚ) : String :=
  if n.den = 1 then ratToString n else ratToString (round12 n)

/-! ## The Expression Buffer operations -/

/-- The `symbolMap` object: visual glyphs to JS operators. -/
def symbolMapStr (v : String) : Option String :=
  if v = "×" then some "*"
  else if v = "÷" then some "/"
  else if v = "−" then some "-"
  else if v = "–" then some "-"
  else none

/-- `if (val in symbolMap) val = symbolMap[val];` -/
def mapVisual (v : String) : String := (symbolMapStr v).getD v

/-- The test `/^[0-9]$/.test(val)`. -/
def isSingleDigit (v : String) : Bool :=
  match v.data with
  | [c] => c.isDigit
  | _ => false

/-- `appendValue(val)`: canonicalize a visual symbol, then replace a
lone `"0"` by a single digit, else concatenate. -/
def appendValue (e v : String) : String :=
  let w := mapVisual v
  if e = "0" ∧ isSingleDigit w = true then w else e ++ w

/-- `negateLastNumber()`: no trailing number appends a bare `-`; else a
leading `-` on the trailing number is toggled in place
(`last.startsWith('-')` is the head-character test, `last.slice(1)`
drops it). -/
def negateLastNumber (e : String) : String :=
  match ((splitTrailing e).2).data with
  | [] => e ++ "-"
  | '-' :: r => (splitTrailing e).1 ++ (⟨r⟩ : String)
  | _ => (splitTrailing e).1 ++ "-" ++ (splitTrailing e).2

/-- `percentLastNumber()`: no trailing number or unparseable token is a
no-op; else the trailing number is replaced by the plain stringification
of `num / 100` (not `formatResult`). -/
def percentLastNumber (e : String) : String :=
  if (splitTrailing e).2 = "" then e
  else
    match parseTok (splitTrailing e).2 with
    | none => e
    | some num => (splitTrailing e).1 ++ ratToString (num / 100)

/-! ## The Function Applicator -/

/-- `Math.PI.toString()` as produced by the JS runtime. -/
def piStr : String := "3.141592653589793"

/-- `Math.E.toString()` as produced by the JS runtime. -/
def eStr : String := "2.718281828459045"

/-- `factorial(n)`: `let res = 1; for (let i = 2; i <= n; i++) res *= i;`
(the rational model never overflows, unlike the double-precision
original for n ≥ 171). -/
def jsFactorial (n : ℕ) : ℕ := (List.range' 2 (n - 1)).foldl (· * ·) 1

/-- Tail of an evaluating scientific function: the
`result === Infinity || result === -Infinity || Number.isNaN(result)`
check, then `replaceLast(formatResult(result))` on success. -/
def sciFinish (e pre : String) (r : JsNum) : String × Option CalcError :=
  match r with
  | .fin q => (pre ++ formatResult q, none)
  | _ => (e, some CalcError.mathError)

/-- `applySciFunction(fn)`.  `prim` abstracts the host `Math` library
(with the deg/rad angle conversion folded in) for the transcendental
functions; the exactly-computable branches are modelled concretely.
In `"pow"` both branches of the source's `if` append `"^"`. -/
def applySciFunction (prim : String → ℚ → JsNum) (fn : String) (e : String) :
    String × Option CalcError :=
  if fn = "pow" then (e ++ "^", none)
  else if fn = "pi" then ((splitTrailing e).1 ++ piStr, none)
  else if fn = "e" then ((splitTrailing e).1 ++ eStr, none)
  else if fn = "percent" then (percentLastNumber e, none)
  else if fn = "negate" then (negateLastNumber e, none)
  else if (splitTrailing e).2 = "" then (e, none)
  else
    match parseTok (splitTrailing e).2 with
    | none => (e, none)
    | some num =>
      match fn with
      | "sin" | "cos" | "tan" | "asin" | "acos" | "atan"
      | "ln" | "log10" | "sqrt" | "exp" =>
          sciFinish e (splitTrailing e).1 (prim fn num)
      | "pow2" => sciFinish e (splitTrailing e).1 (JsNum.fin (num * num))
      | "pow3" => sciFinish e (splitTrailing e).1 (JsNum.fin (num * num * num))
      | "abs" => sciFinish e (splitTrailing e).1 (JsNum.fin |num|)
      | "reciprocal" =>
          if num = 0 then (e, some CalcError.mathError)
          else sciFinish e (splitTrailing e).1 (JsNum.fin (1 / num))
      | "factorial" =>
          if num < 0 ∨ num.den ≠ 1 then (e, some CalcError.invalidArg)
          else sciFinish e (splitTrailing e).1 (JsNum.fin (jsFactorial num.num.toNat))
      | _ => (e, none)

/-! ## The Evaluator (`calculate`, scientific variant) -/

/-- Per-character visual-symbol substitution of `normalizeExpression`. -/
def symbolMapChar (c : Char) : Char :=
  if c = '×' then '*'
  else if c = '÷' then '/'
  else if c = '−' then '-'
  else if c = '–' then '-'
  else c

/-- `normalizeExpression`: map visual symbols, then rewrite every `^`
into the JS power operator `**`. -/
def normalizeExpression (s : String) : String :=
  ⟨(s.data.map symbolMapChar).foldr
    (fun c acc => if c = '^' then '*' :: '*' :: acc else c :: acc) []⟩

/-- One character of the class `[0-9+\-*/%^().\s]`. -/
def allowedChar (c : Char) : Bool :=
  c.isDigit || c = '+' || c = '-' || c = '*' || c = '/' || c = '%' ||
    c = '^' || c = '(' || c = ')' || c = '.' || c.isWhitespace

/-- The test `allowedRE.test(exprRaw)` with `/^[0-9+\-*/%^().\s]+$/`
(the `+` requires a nonempty string). -/
def allowedOk (s : String) : Bool := s ≠ "" && s.data.all allowedChar

/-- The character class of `/[*+\-\/^%]$/`. -/
def stripOps : List Char := ['*', '+', '-', '/', '^', '%']

/-- `exprRaw.replace(/[*+\-\/^%]$/, "")`: drop one trailing operator. -/
def stripTrailingOp (s : String) : String :=
  match s.data.getLast? with
  | some c => if c ∈ stripOps then ⟨s.data.dropLast⟩ else s
  | none => s

/-! ### A concrete model of the evaluation primitive

`calculate` evaluates `safeExpr` with
`Function('"use strict"; return (' + safeExpr + ')')()`, a trusted host
arithmetic evaluator.  `jsEvalPrim` models it for the allowed character
set: JS grammar (additive / multiplicative `* / %` / exponentiation
`**` right-associative, a unary `+`/`-` operand may not be the left
operand of `**`, parentheses, decimal literals) over `JsNum`.
Deviations from IEEE binary64, none of which the claims touch: finite
arithmetic is exact rational arithmetic, there is no negative zero, and
`**` with a non-integer exponent is modelled as `NaN`. -/

/-- JS negation. -/
def jsNeg : JsNum → JsNum
  | .fin a => .fin (-a)
  | .pinf => .ninf
  | .ninf => .pinf
  | .nan => .nan

/-- JS addition. -/
def jsAdd : JsNum → JsNum → JsNum
  | .nan, _ => .nan
  | _, .nan => .nan
  | .pinf, .ninf => .nan
  | .ninf, .pinf => .nan
  | .pinf, _ => .pinf
  | _, .pinf => .pinf
  | .ninf, _ => .ninf
  | _, .ninf => .ninf
  | .fin a, .fin b => .fin (a + b)

/-- JS subtraction. -/
def jsSub (a b : JsNum) : JsNum := jsAdd a (jsNeg b)

/-- JS multiplication. -/
def jsMul : JsNum → JsNum → JsNum
  | .nan, _ => .nan
  | _, .nan => .nan
  | .fin a, .fin b => .fin (a * b)
  | .pinf, .pinf => .pinf
  | .pinf, .ninf => .ninf
  | .ninf, .pinf => .ninf
  | .ninf, .ninf => .pinf
  | .pinf, .fin b => if b = 0 then .nan else if 0 < b then .pinf else .ninf
  | .fin a, .pinf => if a = 0 then .nan else if 0 < a then .pinf else .ninf
  | .ninf, .fin b => if b = 0 then .nan else if 0 < b then .ninf else .pinf
  | .fin a, .ninf => if a = 0 then .nan else if 0 < a then .ninf else .pinf

/-- JS division (`10/0` is `Infinity`; the model has no `-0`). -/
def jsDiv : JsNum → JsNum → JsNum
  | .nan, _ => .nan
  | _, .nan => .nan
  | .fin a, .fin b =>
      if b = 0 then (if a = 0 then .nan else if 0 < a then .pinf else .ninf)
      else .fin (a / b)
  | .pinf, .fin b => if 0 ≤ b then .pinf else .ninf
  | .ninf, .fin b => if 0 ≤ b then .ninf else .pinf
  | .fin _, .pinf => .fin 0
  | .fin _, .ninf => .fin 0
  | _, _ => .nan

/-- Truncation toward zero of a rational (JS `%` uses the truncated
quotient). -/
def ratTrunc (q : ℚ) : ℤ := q.num.tdiv (q.den : ℤ)

/-- JS remainder `%`. -/
def jsMod : JsNum → JsNum → JsNum
  | .nan, _ => .nan
  | _, .nan => .nan
  | .fin a, .fin b => if b = 0 then .nan else .fin (a - b * ratTrunc (a / b))
  | .fin a, .pinf => .fin a
  | .fin a, .ninf => .fin a
  | _, _ => .nan

/-- JS exponentiation `**` (anything to the zeroth power is 1, even
`NaN`; non-integer exponents are outside the rational model). -/
def jsPow : JsNum → JsNum → JsNum
  | _, .fin 0 => .fin 1
  | .nan, _ => .nan
  | _, .nan => .nan
  | .fin a, .fin b =>
      if b.den = 1 then
        if 0 ≤ b.num then .fin (a ^ b.num.toNat)
        else if a = 0 then .pinf else .fin ((1 / a) ^ (-b.num).toNat)
      else .nan
  | .pinf, .fin b => if 0 < b then .pinf else .fin 0
  | .ninf, .fin b => if 0 < b then .ninf else .fin 0
  | .fin a, .pinf => if a = 1 ∨ a = -1 then .nan else if 1 < |a| then .pinf else .fin 0
  | .fin a, .ninf => if a = 1 ∨ a = -1 then .nan else if 1 < |a| then .fin 0 else .pinf
  | .pinf, .pinf => .pinf
  | .ninf, .pinf => .pinf
  | .pinf, .ninf => .fin 0
  | .ninf, .ninf => .fin 0

/-- Tokens of the arithmetic grammar. -/
inductive Tok where
  | num : ℚ → Tok
  | plus
  | minus
  | star
  | slash
  | percentOp
  | powOp
  | lparen
  | rparen
deriving DecidableEq, Repr

/-- Lexer for the allowed character set (fueled; one character is
consumed per step).  A lone `.` with no digits, or any character outside
the arithmetic alphabet, is a lex error (JS `SyntaxError`). -/
def lexAll : ℕ → List Char → Except Unit (List Tok)
  | 0, _ => .error ()
  | _ + 1, [] => .ok []
  | f + 1, c :: cs =>
    if c.isWhitespace then lexAll f cs
    else if c = '+' then (lexAll f cs).map (Tok.plus :: ·)
    else if c = '-' then (lexAll f cs).map (Tok.minus :: ·)
    else if c = '%' then (lexAll f cs).map (Tok.percentOp :: ·)
    else if c = '(' then (lexAll f cs).map (Tok.lparen :: ·)
    else if c = ')' then (lexAll f cs).map (Tok.rparen :: ·)
    else if c = '/' then (lexAll f cs).map (Tok.slash :: ·)
    else if c = '*' then
      match cs with
      | '*' :: cs2 => (lexAll f cs2).map (Tok.powOp :: ·)
      | _ => (lexAll f cs).map (Tok.star :: ·)
    else if c.isDigit ∨ c = '.' then
      let a := (c :: cs).takeWhile Char.isDigit
      let l1 := (c :: cs).dropWhile Char.isDigit
      match l1 with
      | '.' :: r2 =>
          let b := r2.takeWhile Char.isDigit
          if a = [] ∧ b = [] then .error ()
          else
            (lexAll f (r2.dropWhile Char.isDigit)).map
              (Tok.num ((digitsVal a : ℚ) + (digitsVal b : ℚ) / 10 ^ b.length) :: ·)
      | _ => (lexAll f l1).map (Tok.num (digitsVal a) :: ·)
    else .error ()

/-- Parser modes: additive, multiplicative, exponentiation, unary,
primary; the `Rest` modes carry the left-associative accumulator. -/
inductive PMode where
  | add
  | addRest : JsNum → PMode
  | mul
  | mulRest : JsNum → PMode
  | expo
  | unary
  | prim

/-- Recursive-descent evaluation of a token list (fueled). -/
def parseRun : ℕ → PMode → List Tok → Except Unit (JsNum × List Tok)
  | 0, _, _ => .error ()
  | f + 1, m, ts =>
    match m with
    | .add => do
        let (v, ts1) ← parseRun f .mul ts
        parseRun f (.addRest v) ts1
    | .addRest acc =>
        match ts with
        | .plus :: ts1 => do
            let (w, ts2) ← parseRun f .mul ts1
            parseRun f (.addRest (jsAdd acc w)) ts2
        | .minus :: ts1 => do
            let (w, ts2) ← parseRun f .mul ts1
            parseRun f (.addRest (jsSub acc w)) ts2
        | _ => .ok (acc, ts)
    | .mul => do
        let (v, ts1) ← parseRun f .expo ts
        parseRun f (.mulRest v) ts1
    | .mulRest acc =>
        match ts with
        | .star :: ts1 => do
            let (w, ts2) ← parseRun f .expo ts1
            parseRun f (.mulRest (jsMul acc w)) ts2
        | .slash :: ts1 => do
            let (w, ts2) ← parseRun f .expo ts1
            parseRun f (.mulRest (jsDiv acc w)) ts2
        | .percentOp :: ts1 => do
            let (w, ts2) ← parseRun f .expo ts1
            parseRun f (.mulRest (jsMod acc w)) ts2
        | _ => .ok (acc, ts)
    | .expo =>
        match ts with
        | .minus :: _ => do
            let (v, ts1) ← parseRun f .unary ts
            match ts1 with
            | .powOp :: _ => .error ()
            | _ => .ok (v, ts1)
        | .plus :: _ => do
            let (v, ts1) ← parseRun f .unary ts
            match ts1 with
            | .powOp :: _ => .error ()
            | _ => .ok (v, ts1)
        | _ => do
            let (v, ts1) ← parseRun f .prim ts
            match ts1 with
            | .powOp :: ts2 => do
                let (w, ts3) ← parseRun f .expo ts2
                .ok (jsPow v w, ts3)
            | _ => .ok (v, ts1)
    | .unary =>
        match ts with
        | .minus :: ts1 => do
            let (v, ts2) ← parseRun f .unary ts1
            .ok (jsNeg v, ts2)
        | .plus :: ts1 => do
            let (v, ts2) ← parseRun f .unary ts1
            .ok (v, ts2)
        | _ => parseRun f .prim ts
    | .prim =>
        match ts with
        | .num q :: ts1 => .ok (.fin q, ts1)
        | .lparen :: ts1 => do
            let (v, ts2) ← parseRun f .add ts1
            match ts2 with
            | .rparen :: ts3 => .ok (v, ts3)
            | _ => .error ()
        | _ => .error ()

/-- The concrete evaluation-primitive model: lex, parse a full additive
expression, and require all tokens consumed.  The empty string is a
syntax error (the source evaluates `return ()`). -/
def jsEvalPrim (s : String) : Except Unit JsNum := do
  let ts ← lexAll (s.length + 1) s.data
  let (v, rest) ← parseRun (8 * (ts.length + 1)) .add ts
  match rest with
  | [] => .ok v
  | _ => .error ()

/-- `calculate()`, parameterized by the trusted evaluation primitive:
empty expression is a no-op; character validation; one trailing
operator stripped; primitive failure is the generic `"Error"`; an
infinite or `NaN` result is `"Math error"`; otherwise the buffer is
replaced by the formatted result.  On every failure `state.expr` is
unchanged (the delayed `showError` reset is outside the model). -/
def calculate (evalPrim : String → Except Unit JsNum) (e : String) :
    String × Option CalcError :=
  if e = "" then (e, none)
  else if allowedOk (normalizeExpression e) = false then (e, some CalcError.invalidChars)
  else
    match evalPrim (stripTrailingOp (normalizeExpression e)) with
    | .error _ => (e, some CalcError.genericError)
    | .ok (.fin q) => (formatResult q, none)
    | .ok _ => (e, some CalcError.mathError)

/-- A trivial instantiation of the abstract `Math` primitive, used only
to instantiate universally quantified theorems in witnesses. -/
def nanPrim : String → ℚ → JsNum := fun _ _ => JsNum.nan

/-- The evaluating scientific function names (category (b) of the spec). -/
def evalFnNames : List String :=
  ["sin", "cos", "tan", "asin", "acos", "atan", "ln", "log10", "sqrt",
   "pow2", "pow3", "exp", "abs", "reciprocal", "factorial"]

/-- Reversed-orientation shapes of an unsigned token `\d*\.?\d*`: a
digit run, optionally preceded (in string order: followed) by a dot and
a second digit run. -/
def RevU (l : List Char) : Prop :=
  (∀ c ∈ l, c.isDigit = true) ∨
  ∃ d1 d2, (∀ c ∈ d1, c.isDigit = true) ∧ (∀ c ∈ d2, c.isDigit = true) ∧
    l = d1 ++ '.' :: d2

/-- Is the trailing token signed, i.e. does it start with a minus? -/
def signedTok (t : String) : Bool :=
  match t.data with
  | '-' :: _ => true
  | _ => false

/-- Does the text before the trailing token block leftward extension of
an unsigned token: empty, or ending in a character that is not a digit,
not `'.'` and not `'-'`? -/
def blockedPre (p : String) : Bool :=
  match p.data.getLast? with
  | none => true
  | some c => !(c.isDigit || c == '.' || c == '-')

/-! ## Lemmas about the trailing-token splitter -/

lemma takeWhile_all_append {p : Char → Bool} :
    ∀ {l1 : List Char} (l2 : List Char), (∀ c ∈ l1, p c = true) →
      (l1 ++ l2).takeWhile p = l1 ++ l2.takeWhile p
  | [], l2, _ => by simp
  | c :: cs, l2, h => by
    simp only [List.cons_append, List.takeWhile_cons_of_pos (h c (by simp)),
      List.cons.injEq, true_and]
    exact takeWhile_all_append l2 (fun x hx => h x (by simp [hx]))

lemma dropWhile_all_append {p : Char → Bool} :
    ∀ {l1 : List Char} (l2 : List Char), (∀ c ∈ l1, p c = true) →
      (l1 ++ l2).dropWhile p = l2.dropWhile p
  | [], l2, _ => by simp
  | c :: cs, l2, h => by
    simp only [List.cons_append, List.dropWhile_cons_of_pos (h c (by simp))]
    exact dropWhile_all_append l2 (fun x hx => h x (by simp [hx]))

lemma RevU_mem {u : List Char} (hu : RevU u) :
    ∀ c ∈ u, c.isDigit = true ∨ c = '.' := by
  rcases hu with hd | ⟨d1, d2, h1, h2, rfl⟩
  · exact fun c hc => Or.inl (hd c hc)
  · intro c hc
    rcases List.mem_append.mp hc with hc | hc
    · exact Or.inl (h1 c hc)
    · rcases List.mem_cons.mp hc with rfl | hc
      · exact Or.inr rfl
      · exact Or.inl (h2 c hc)

lemma splitRev_minus {u : List Char} (rest : List Char) (hu : RevU u) :
    splitRev (u ++ '-' :: rest) = (u ++ ['-'], rest) := by
  rcases hu with hd | ⟨d1, d2, h1, h2, rfl⟩
  · unfold splitRev
    rw [dropWhile_all_append _ hd, takeWhile_all_append _ hd]
    simp
  · unfold splitRev
    rw [List.append_assoc, List.cons_append,
      dropWhile_all_append _ h1, takeWhile_all_append _ h1]
    simp only [List.dropWhile_cons_of_neg (by decide : ¬('.'.isDigit = true)),
      List.takeWhile_cons_of_neg (by decide : ¬('.'.isDigit = true))]
    rw [dropWhile_all_append _ h2, takeWhile_all_append _ h2]
    simp

lemma splitRev_closedNil {u : List Char} (hu : RevU u) :
    splitRev u = (u, []) := by
  rcases hu with hd | ⟨d1, d2, h1, h2, rfl⟩
  · unfold splitRev
    rw [List.dropWhile_eq_nil_iff.mpr (fun c hc => hd c hc),
      List.takeWhile_eq_self_iff.mpr (fun c hc => hd c hc)]
  · unfold splitRev
    rw [dropWhile_all_append _ h1, takeWhile_all_append _ h1]
    simp only [List.dropWhile_cons_of_neg (by decide : ¬('.'.isDigit = true)),
      List.takeWhile_cons_of_neg (by decide : ¬('.'.isDigit = true))]
    rw [List.dropWhile_eq_nil_iff.mpr (fun c hc => h2 c hc),
      List.takeWhile_eq_self_iff.mpr (fun c hc => h2 c hc)]
    simp

lemma splitRev_closedCons {u : List Char} (c : Char) (rest : List Char) (hu : RevU u)
    (hc1 : c.isDigit = false) (hc2 : c ≠ '.') (hc3 : c ≠ '-') :
    splitRev (u ++ c :: rest) = (u, c :: rest) := by
  have hcd : ¬(c.isDigit = true) := by simp [hc1]
  rcases hu with hd | ⟨d1, d2, h1, h2, rfl⟩
  · unfold splitRev
    rw [dropWhile_all_append _ hd, takeWhile_all_append _ hd,
      List.dropWhile_cons_of_neg hcd, List.takeWhile_cons_of_neg hcd]
    simp only [List.append_nil]
    split
    · next heq => exact absurd (List.head_eq_of_cons_eq heq) hc2
    · next heq => exact absurd (List.head_eq_of_cons_eq heq) hc3
    · rfl
  · unfold splitRev
    rw [List.append_assoc, List.cons_append,
      dropWhile_all_append _ h1, takeWhile_all_append _ h1]
    simp only [List.dropWhile_cons_of_neg (by decide : ¬('.'.isDigit = true)),
      List.takeWhile_cons_of_neg (by decide : ¬('.'.isDigit = true))]
    rw [dropWhile_all_append _ h2, takeWhile_all_append _ h2,
      List.dropWhile_cons_of_neg hcd, List.takeWhile_cons_of_neg hcd]
    simp only [List.append_nil]
    split
    · next heq => exact absurd (List.head_eq_of_cons_eq heq) hc3
    · rfl

lemma splitRev_shape (r : List Char) :
    ∃ u rest, RevU u ∧
      (splitRev r = (u, rest) ∨ splitRev r = (u ++ ['-'], rest)) := by
  have htk : ∀ l : List Char, ∀ c ∈ l.takeWhile Char.isDigit, c.isDigit = true :=
    fun l c hc => List.mem_takeWhile_imp hc
  unfold splitRev
  split
  · next r2 heq =>
    split
    · next r4 heq2 =>
      refine ⟨r.takeWhile Char.isDigit ++ '.' :: r2.takeWhile Char.isDigit, r4,
        Or.inr ⟨_, _, htk r, htk r2, rfl⟩, Or.inr ?_⟩
      simp
    · next heq2 =>
      exact ⟨r.takeWhile Char.isDigit ++ '.' :: r2.takeWhile Char.isDigit, _,
        Or.inr ⟨_, _, htk r, htk r2, rfl⟩, Or.inl rfl⟩
  · next r4 heq =>
    exact ⟨r.takeWhile Char.isDigit, r4, Or.inl (htk r), Or.inr rfl⟩
  · exact ⟨r.takeWhile Char.isDigit, _, Or.inl (htk r), Or.inl rfl⟩

lemma splitRev_join (r : List Char) : (splitRev r).1 ++ (splitRev r).2 = r := by
  unfold splitRev
  split
  · next r2 heq =>
    have h1 : r.takeWhile Char.isDigit ++ '.' :: r2 = r := by
      rw [← heq]; exact List.takeWhile_append_dropWhile _ _
    split
    · next r4 heq2 =>
      have h2 : r2.takeWhile Char.isDigit ++ '-' :: r4 = r2 := by
        rw [← heq2]; exact List.takeWhile_append_dropWhile _ _
      calc (r.takeWhile Char.isDigit ++
              '.' :: (r2.takeWhile Char.isDigit ++ ['-']), r4).1 ++ r4
          = r.takeWhile Char.isDigit ++
              '.' :: (r2.takeWhile Char.isDigit ++ '-' :: r4) := by simp
        _ = r.takeWhile Char.isDigit ++ '.' :: r2 := by rw [h2]
        _ = r := h1
    · next heq2 =>
      calc (r.takeWhile Char.isDigit ++ '.' :: r2.takeWhile Char.isDigit,
              r2.dropWhile Char.isDigit).1 ++ r2.dropWhile Char.isDigit
          = r.takeWhile Char.isDigit ++
              '.' :: (r2.takeWhile Char.isDigit ++ r2.dropWhile Char.isDigit) := by
            simp
        _ = r.takeWhile Char.isDigit ++ '.' :: r2 := by
            rw [List.takeWhile_append_dropWhile]
        _ = r := h1
  · next r4 heq =>
    calc (r.takeWhile Char.isDigit ++ ['-'], r4).1 ++ r4
        = r.takeWhile Char.isDigit ++ '-' :: r4 := by simp
      _ = r := by rw [← heq]; exact List.takeWhile_append_dropWhile _ _
  · next heq =>
    exact List.takeWhile_append_dropWhile _ _

lemma splitTrailing_eq {e : String} {tokRev preRev : List Char}
    (h : splitRev e.data.reverse = (tokRev, preRev)) :
    splitTrailing e = (⟨preRev.reverse⟩, ⟨tokRev.reverse⟩) := by
  unfold splitTrailing
  rw [h]

lemma negate_empty {e P T : String} (hsplit : splitTrailing e = (P, T))
    (h : T.data = []) : negateLastNumber e = e ++ "-" := by
  unfold negateLastNumber
  rw [hsplit]
  simp only [h]

lemma negate_signed {e P T : String} {r : List Char}
    (hsplit : splitTrailing e = (P, T)) (h : T.data = '-' :: r) :
    negateLastNumber e = P ++ (⟨r⟩ : String) := by
  unfold negateLastNumber
  rw [hsplit]
  simp only [h]

lemma negate_unsigned {e P T : String} (hsplit : splitTrailing e = (P, T))
    (hne : T.data ≠ []) (hhead : ∀ r, T.data ≠ '-' :: r) :
    negateLastNumber e = P ++ "-" ++ T := by
  unfold negateLastNumber
  rw [hsplit]
  split
  · next heq => exact absurd heq hne
  · next r heq => exact absurd heq (hhead r)
  · rfl

lemma applySci_no_token (prim : String → ℚ → JsNum) (fn e : String)
    (h1 : fn ≠ "pow") (h2 : fn ≠ "pi") (h3 : fn ≠ "e") (h4 : fn ≠ "percent")
    (h5 : fn ≠ "negate")
    (h : (splitTrailing e).2 = "" ∨ parseTok (splitTrailing e).2 = none) :
    applySciFunction prim fn e = (e, none) := by
  unfold applySciFunction
  rw [if_neg h1, if_neg h2, if_neg h3, if_neg h4, if_neg h5]
  rcases h with h | h
  · rw [if_pos h]
  · by_cases he : (splitTrailing e).2 = ""
    · rw [if_pos he]
    · rw [if_neg he, h]

lemma jsFactorial_eq : ∀ m : ℕ, jsFactorial m = Nat.factorial m
  | 0 => rfl
  | 1 => rfl
  | (j + 2) => by
    have h : jsFactorial (j + 2) = jsFactorial (j + 1) * (2 + j) := by
      unfold jsFactorial
      have hr : List.range' 2 (j + 2 - 1) = List.range' 2 (j + 1 - 1) ++ [2 + j] := by
        simpa using List.range'_1_concat 2 j
      rw [hr, List.foldl_append]
      rfl
    rw [h, jsFactorial_eq (j + 1), Nat.add_comm 2 j,
      show Nat.factorial (j + 2) = (j + 2) * Nat.factorial (j + 1) from rfl]
    exact Nat.mul_comm _ _

/-! ## Evaluation helpers for concrete rationals

`Rat` arithmetic does not reduce definitionally, so concrete values are
computed through `norm_num` with these bridging lemmas. -/

lemma ratToStringPos_frac (q : ℚ) (k n : ℕ) (hk : find10Exp q.den = k)
    (hk0 : k ≠ 0) (hn : q * 10 ^ k = (n : ℚ)) :
    ratToStringPos q =
      natToString (n / 10 ^ k) ++ "." ++ padLeftZeros (natToString (n % 10 ^ k)) k := by
  unfold ratToStringPos
  rw [hk, if_neg hk0, hn, Rat.num_natCast, Int.toNat_natCast]

lemma ratToString_natCast (n : ℕ) : ratToString (n : ℚ) = natToString n := by
  unfold ratToString
  rw [if_neg (not_lt.mpr (by positivity : (0 : ℚ) ≤ (n : ℚ)))]
  unfold ratToStringPos
  rw [Rat.den_natCast, show find10Exp 1 = 0 from rfl, if_pos rfl,
    Rat.num_natCast, Int.toNat_natCast]

lemma formatResult_natCast (n : ℕ) : formatResult (n : ℚ) = natToString n := by
  unfold formatResult
  rw [if_pos (Rat.den_natCast n), ratToString_natCast]

lemma parseTok_5 : parseTok "5" = some 5 := by
  rw [show parseTok "5" = some ((digitsVal ['5'] : ℚ) +
      (digitsVal ([] : List Char) : ℚ) / 10 ^ (([] : List Char)).length) from rfl,
    show digitsVal ['5'] = 5 from rfl,
    show digitsVal ([] : List Char) = 0 from rfl]
  norm_num

lemma parseTok_50 : parseTok "50" = some 50 := by
  rw [show parseTok "50" = some ((digitsVal ['5', '0'] : ℚ) +
      (digitsVal ([] : List Char) : ℚ) / 10 ^ (([] : List Char)).length) from rfl,
    show digitsVal ['5', '0'] = 50 from rfl,
    show digitsVal ([] : List Char) = 0 from rfl]
  norm_num

lemma parseTok_neg1 : parseTok "-1" = some (-1) := by
  rw [show parseTok "-1" = some (-((digitsVal ['1'] : ℚ) +
      (digitsVal ([] : List Char) : ℚ) / 10 ^ (([] : List Char)).length)) from rfl,
    show digitsVal ['1'] = 1 from rfl,
    show digitsVal ([] : List Char) = 0 from rfl]
  norm_num

lemma applySci_factorial_bad (prim : String → ℚ → JsNum) (e : String) (n : ℚ)
    (h : parseTok (splitTrailing e).2 = some n) (hbad : n < 0 ∨ n.den ≠ 1) :
    applySciFunction prim "factorial" e = (e, some CalcError.invalidArg) := by
  have hne : (splitTrailing e).2 ≠ "" := by
    intro h0
    rw [h0] at h
    exact Option.noConfusion ((by rfl : parseTok "" = none) ▸ h)
  unfold applySciFunction
  rw [if_neg (by decide), if_neg (by decide), if_neg (by decide),
    if_neg (by decide), if_neg (by decide), if_neg hne, h]
  simp only [if_pos hbad]

lemma applySci_factorial_ok (prim : String → ℚ → JsNum) (e : String) (n : ℚ)
    (h : parseTok (splitTrailing e).2 = some n) (h0 : 0 ≤ n) (h1 : n.den = 1) :
    applySciFunction prim "factorial" e =
      ((splitTrailing e).1 ++ formatResult (jsFactorial n.num.toNat), none) := by
  have hne : (splitTrailing e).2 ≠ "" := by
    intro h0
    rw [h0] at h
    exact Option.noConfusion ((by rfl : parseTok "" = none) ▸ h)
  unfold applySciFunction
  rw [if_neg (by decide), if_neg (by decide), if_neg (by decide),
    if_neg (by decide), if_neg (by decide), if_neg hne, h]
  simp only [if_neg (by simp [not_or, h1, not_lt.mpr h0] : ¬(n < 0 ∨ n.den ≠ 1))]
  rfl

/-! ## The claims -/

/-- C2: `append(d)` on the empty buffer yields the digit itself; on the
buffer `"0"` a single digit replaces the `"0"`; on any other buffer
state (and for any non-digit value) the canonicalized value is
concatenated to the end. -/
theorem C2_append_digit (d v e : String) (hd : isSingleDigit d = true) :
    appendValue "" d = d ∧
    appendValue "0" d = d ∧
    (e ≠ "0" → appendValue e v = e ++ mapVisual v) ∧
    (isSingleDigit (mapVisual v) = false → appendValue e v = e ++ mapVisual v) := by
  have hmap : mapVisual d = d := by
    have h1 : d ≠ "×" := by rintro rfl; exact absurd hd (by decide)
    have h2 : d ≠ "÷" := by rintro rfl; exact absurd hd (by decide)
    have h3 : d ≠ "−" := by rintro rfl; exact absurd hd (by decide)
    have h4 : d ≠ "–" := by rintro rfl; exact absurd hd (by decide)
    simp [mapVisual, symbolMapStr, h1, h2, h3, h4]
  refine ⟨?_, ?_, ?_, ?_⟩
  · unfold appendValue
    rw [hmap, if_neg (by simp)]
    exact (String.ext (by simp))
  · unfold appendValue
    rw [hmap, if_pos ⟨rfl, hd⟩]
  · intro he
    unfold appendValue
    rw [if_neg (by simp [he])]
  · intro hv
    unfold appendValue
    rw [if_neg (by simp [hv])]

/-- C2 witness. -/
theorem C2_witness : appendValue "" "7" = "7" :=
  (C2_append_digit "7" "x" "ab" (by decide)).1

/-- C8: `applyFunction("pow")` (the power function) appends the caret
power marker unconditionally — both branches of the source's `if`
append `"^"` — and never evaluates or errors. -/
theorem C8_pow_appends_marker (prim : String → ℚ → JsNum) (e : String) :
    applySciFunction prim "pow" e = (e ++ "^", none) := rfl

/-- C7: every evaluating scientific function is a silent no-op when the
trailing token is empty or not numerically parseable: no error, buffer
unchanged. -/
theorem C7_eval_fn_noop (prim : String → ℚ → JsNum) (fn e : String)
    (hfn : fn ∈ evalFnNames)
    (h : (splitTrailing e).2 = "" ∨ parseTok (splitTrailing e).2 = none) :
    applySciFunction prim fn e = (e, none) := by
  fin_cases hfn <;>
    exact applySci_no_token prim _ e (by decide) (by decide) (by decide)
      (by decide) (by decide) h

/-- C7 witness: `sin` on a buffer with no trailing number. -/
theorem C7_witness : applySciFunction nanPrim "sin" "(" = ("(", none) :=
  C7_eval_fn_noop nanPrim "sin" "(" (by decide) (Or.inl (by decide))

/-- C5: `percentLastNumber` with no trailing number (or an unparseable
token) is a no-op; with a parseable trailing number `n` it replaces the
token by the plain stringification of `n / 100`, leaving the prior text
unchanged. -/
theorem C5_percent_last (e : String) (n : ℚ) :
    ((splitTrailing e).2 = "" → percentLastNumber e = e) ∧
    (parseTok (splitTrailing e).2 = none → percentLastNumber e = e) ∧
    (parseTok (splitTrailing e).2 = some n →
      percentLastNumber e = (splitTrailing e).1 ++ ratToString (n / 100)) := by
  refine ⟨?_, ?_, ?_⟩
  · intro h
    unfold percentLastNumber
    rw [if_pos h]
  · intro h
    unfold percentLastNumber
    by_cases he : (splitTrailing e).2 = ""
    · rw [if_pos he]
    · rw [if_neg he, h]
  · intro h
    have hne : (splitTrailing e).2 ≠ "" := by
      intro h0
      rw [h0] at h
      exact Option.noConfusion ((by rfl : parseTok "" = none) ▸ h)
    unfold percentLastNumber
    rw [if_neg hne, h]

/-- C5 witness: `percentLastNumber "50" = "0.5"`. -/
theorem C5_witness : percentLastNumber "50" = "0.5" := by
  have h := (C5_percent_last "50" 50).2.2
    (by rw [show (splitTrailing "50").2 = "50" from by decide]; exact parseTok_50)
  rw [h, show (splitTrailing "50").1 = "" from by decide,
    show (50 : ℚ) / 100 = 1 / 2 from by norm_num]
  unfold ratToString
  rw [if_neg (by norm_num), ratToStringPos_frac (1 / 2) 1 5
    (by rw [show ((1 : ℚ) / 2).den = 2 from by norm_num]; decide) (by norm_num)
    (by norm_num)]
  decide

/-- C6: factorial on trailing `"5"` yields `"120"`; on `"-1"` it raises
the Invalid error and leaves the buffer unchanged, as it does for every
negative or non-integer operand; on a nonnegative integer operand the
token is replaced by the formatted iterative product, which agrees with
the mathematical factorial (so `factorial(0) = factorial(1) = 1`). -/
theorem C6_factorial (prim : String → ℚ → JsNum) (e : String) (n : ℚ)
    (h : parseTok (splitTrailing e).2 = some n) :
    applySciFunction prim "factorial" "5" = ("120", none) ∧
    applySciFunction prim "factorial" "-1" = ("-1", some CalcError.invalidArg) ∧
    (n < 0 ∨ n.den ≠ 1 →
      applySciFunction prim "factorial" e = (e, some CalcError.invalidArg)) ∧
    (0 ≤ n → n.den = 1 →
      applySciFunction prim "factorial" e =
        ((splitTrailing e).1 ++ formatResult (jsFactorial n.num.toNat), none)) ∧
    (∀ m : ℕ, jsFactorial m = Nat.factorial m) := by
  refine ⟨?_, ?_, applySci_factorial_bad prim e n h,
    fun h0 h1 => applySci_factorial_ok prim e n h h0 h1, jsFactorial_eq⟩
  · have h5 : parseTok (splitTrailing "5").2 = some (5 : ℚ) := by
      rw [show (splitTrailing "5").2 = "5" from by decide]
      exact parseTok_5
    rw [applySci_factorial_ok prim "5" 5 h5 (by norm_num) (by norm_num),
      show (splitTrailing "5").1 = "" from by decide,
      show (5 : ℚ).num.toNat = 5 from by
        rw [show (5 : ℚ).num = 5 from by norm_num]; rfl,
      show jsFactorial 5 = 120 from rfl, formatResult_natCast]
    decide
  · have h1 : parseTok (splitTrailing "-1").2 = some (-1 : ℚ) := by
      rw [show (splitTrailing "-1").2 = "-1" from by decide]
      exact parseTok_neg1
    exact applySci_factorial_bad prim "-1" (-1) h1 (Or.inl (by norm_num))

/-- C6 witness: factorial of the trailing `"5"`. -/
theorem C6_witness : applySciFunction nanPrim "factorial" "5" = ("120", none) :=
  (C6_factorial nanPrim "5" 5 (by
    rw [show (splitTrailing "5").2 = "5" from by decide]; exact parseTok_5)).1

/-- C10: for any expression of the form `p ++ "-" ++ digits`, the
trailing-token split extracts the minus as the sign of the trailing
number even when it is a binary subtraction, so sign-toggling operates
on the signed token. -/
theorem C10_trailing_sign_split (p ds : String) (h1 : ds ≠ "")
    (h2 : ∀ c ∈ ds.data, c.isDigit = true) :
    splitTrailing (p ++ "-" ++ ds) = (p, "-" ++ ds) ∧
    negateLastNumber (p ++ "-" ++ ds) = p ++ ds := by
  have hrev : (p ++ "-" ++ ds).data.reverse =
      ds.data.reverse ++ '-' :: p.data.reverse := by
    simp only [String.data_append, List.reverse_append]
    rfl
  have hu : RevU ds.data.reverse :=
    Or.inl (fun c hc => h2 c (List.mem_reverse.mp hc))
  have hs : splitRev (p ++ "-" ++ ds).data.reverse =
      (ds.data.reverse ++ ['-'], p.data.reverse) := by
    rw [hrev]
    exact splitRev_minus _ hu
  have hsplit : splitTrailing (p ++ "-" ++ ds) = (p, "-" ++ ds) := by
    rw [splitTrailing_eq hs]
    have e1 : (⟨p.data.reverse.reverse⟩ : String) = p := String.ext (by simp)
    have e2 : (⟨(ds.data.reverse ++ ['-']).reverse⟩ : String) = "-" ++ ds := by
      apply String.ext
      simp only [List.reverse_append, List.reverse_reverse, List.reverse_cons,
        List.reverse_nil, List.nil_append, List.cons_append, String.data_append]
    rw [e1, e2]
  refine ⟨hsplit, ?_⟩
  have hd : ("-" ++ ds).data = '-' :: ds.data := by
    simp only [String.data_append]
    rfl
  rw [negate_signed hsplit hd]

lemma mem_revU_head {u : List Char} (hu : RevU u) :
    ∀ r, u.reverse ≠ '-' :: r := by
  intro r hr
  have hm : '-' ∈ u := List.mem_reverse.mp (hr ▸ List.mem_cons_self '-' r)
  rcases RevU_mem hu '-' hm with h | h
  · exact absurd h (by decide)
  · exact absurd h (by decide)

/-- C1 counterexample: on `"5-3"`, whose `-` is a binary subtraction,
`negateLast` applied twice yields `"-53"`, not the original
expression. -/
theorem C1_counterexample :
    negateLastNumber (negateLastNumber "5-3") = "-53" ∧
    negateLastNumber (negateLastNumber "5-3") ≠ "5-3" := by
  decide

/-- C1 (amended): `negateLast` is its own inverse on an expression with
a parseable trailing number provided the extracted token is unsigned,
or, when the token carries a leading minus, the text before it is empty
or ends in a character other than a digit, `'.'` or `'-'` (on `"5-3"`
the stripped minus is re-absorbed as a binary operator and the property
fails). -/
theorem C1_negate_involutive_amended (e : String)
    (hpar : (parseTok (splitTrailing e).2).isSome = true)
    (h : signedTok (splitTrailing e).2 = false ∨
      blockedPre (splitTrailing e).1 = true) :
    negateLastNumber (negateLastNumber e) = e := by
  obtain ⟨u, rest, hu, hcase⟩ := splitRev_shape e.data.reverse
  have hjoin := splitRev_join e.data.reverse
  rcases hcase with hc | hc
  · -- the trailing token is unsigned
    have hsplit : splitTrailing e = (⟨rest.reverse⟩, ⟨u.reverse⟩) :=
      splitTrailing_eq hc
    have hune : u ≠ [] := by
      intro h0
      rw [hsplit] at hpar
      subst h0
      have h1 : (parseTok (⟨([] : List Char).reverse⟩ : String)).isSome = true := hpar
      exact absurd h1 (by decide)
    have hne2 : ((⟨u.reverse⟩ : String)).data ≠ [] :=
      fun h0 => hune (List.reverse_eq_nil_iff.mp h0)
    have hhead : ∀ r, ((⟨u.reverse⟩ : String)).data ≠ '-' :: r :=
      fun r hr => mem_revU_head hu r hr
    have hstep1 : negateLastNumber e = ⟨rest.reverse⟩ ++ "-" ++ ⟨u.reverse⟩ :=
      negate_unsigned hsplit hne2 hhead
    have hdata2 :
        ((⟨rest.reverse⟩ ++ "-" ++ (⟨u.reverse⟩ : String))).data.reverse =
          u ++ '-' :: rest := by
      simp only [String.data_append, List.reverse_append, List.reverse_reverse]
      rfl
    have hsplit2 : splitTrailing (⟨rest.reverse⟩ ++ "-" ++ ⟨u.reverse⟩) =
        (⟨rest.reverse⟩, ⟨(u ++ ['-']).reverse⟩) :=
      splitTrailing_eq (by rw [hdata2]; exact splitRev_minus rest hu)
    have hT2 : ((⟨(u ++ ['-']).reverse⟩ : String)).data = '-' :: u.reverse := by
      simp
    rw [hstep1, negate_signed hsplit2 hT2]
    apply String.ext
    have he : e.data = rest.reverse ++ u.reverse := by
      rw [hc] at hjoin
      have h2 := congrArg List.reverse hjoin
      simpa using h2.symm
    rw [he]
    simp [String.data_append]
  · -- the trailing token is signed
    have hsplit : splitTrailing e = (⟨rest.reverse⟩, ⟨(u ++ ['-']).reverse⟩) :=
      splitTrailing_eq hc
    have hT : ((⟨(u ++ ['-']).reverse⟩ : String)).data = '-' :: u.reverse := by
      simp
    have hune : u ≠ [] := by
      intro h0
      rw [hsplit] at hpar
      subst h0
      have h1 : (parseTok (⟨(([] : List Char) ++ ['-']).reverse⟩ : String)).isSome
          = true := hpar
      exact absurd h1 (by decide)
    have hsTok : (⟨(u ++ ['-']).reverse⟩ : String) = ⟨'-' :: u.reverse⟩ :=
      String.ext hT
    have hsigned : signedTok ⟨(u ++ ['-']).reverse⟩ = true := by
      rw [hsTok]
      rfl
    have hblock : blockedPre (⟨rest.reverse⟩ : String) = true := by
      rcases h with h | h
      · rw [hsplit] at h
        have h2 : signedTok (⟨(u ++ ['-']).reverse⟩ : String) = false := h
        rw [hsigned] at h2
        exact absurd h2 (by decide)
      · rw [hsplit] at h
        exact h
    have hstep1 : negateLastNumber e = ⟨rest.reverse⟩ ++ ⟨u.reverse⟩ :=
      negate_signed hsplit hT
    have hdata2 : ((⟨rest.reverse⟩ ++ (⟨u.reverse⟩ : String))).data.reverse =
        u ++ rest := by
      simp [String.data_append]
    have hs2 : splitRev ((⟨rest.reverse⟩ ++ (⟨u.reverse⟩ : String))).data.reverse =
        (u, rest) := by
      rw [hdata2]
      cases rest with
      | nil =>
        simpa using splitRev_closedNil hu
      | cons c rest2 =>
        have hlast : ((⟨(c :: rest2).reverse⟩ : String)).data.getLast? = some c := by
          simp
        unfold blockedPre at hblock
        rw [hlast] at hblock
        have hc1 : c.isDigit = false := by
          by_contra hcon
          simp [eq_true_of_ne_false hcon] at hblock
        have hc2 : c ≠ '.' := by
          intro hcon
          subst hcon
          simp at hblock
        have hc3 : c ≠ '-' := by
          intro hcon
          subst hcon
          simp at hblock
        exact splitRev_closedCons c rest2 hu hc1 hc2 hc3
    have hsplit2 : splitTrailing (⟨rest.reverse⟩ ++ ⟨u.reverse⟩) =
        (⟨rest.reverse⟩, ⟨u.reverse⟩) := by
      have := splitTrailing_eq hs2
      simpa using this
    have hne2 : ((⟨u.reverse⟩ : String)).data ≠ [] :=
      fun h0 => hune (List.reverse_eq_nil_iff.mp h0)
    have hhead : ∀ r, ((⟨u.reverse⟩ : String)).data ≠ '-' :: r :=
      fun r hr => mem_revU_head hu r hr
    rw [hstep1, negate_unsigned hsplit2 hne2 hhead]
    apply String.ext
    have he : e.data = rest.reverse ++ '-' :: u.reverse := by
      rw [hc] at hjoin
      have h2 := congrArg List.reverse hjoin
      simpa using h2.symm
    rw [he]
    simp [String.data_append]

/-- C1 witness: on `"53"` (unsigned trailing number) two negations
restore the expression. -/
theorem C1_witness : negateLastNumber (negateLastNumber "53") = "53" :=
  C1_negate_involutive_amended "53" (by decide) (Or.inl (by decide))

lemma stripTrailingOp_concat (t : String) (c : Char) (hc : c ∈ stripOps) :
    stripTrailingOp (t ++ (⟨[c]⟩ : String)) = t := by
  have hdata : (t ++ (⟨[c]⟩ : String)).data = t.data ++ [c] := by
    simp [String.data_append]
  unfold stripTrailingOp
  rw [hdata, List.getLast?_concat]
  show (if c ∈ stripOps then (⟨(t.data ++ [c]).dropLast⟩ : String)
    else t ++ (⟨[c]⟩ : String)) = t
  rw [if_pos hc, List.dropLast_concat]

lemma jsEvalPrim_10div0 : jsEvalPrim "10/0" = .ok JsNum.pinf := by
  rw [show jsEvalPrim "10/0" =
      .ok (jsDiv (JsNum.fin ((digitsVal ['1', '0'] : ℕ) : ℚ))
        (JsNum.fin ((digitsVal ['0'] : ℕ) : ℚ))) from rfl,
    show digitsVal ['1', '0'] = 10 from rfl, show digitsVal ['0'] = 0 from rfl,
    show ((10 : ℕ) : ℚ) = (10 : ℚ) from by norm_num,
    show ((0 : ℕ) : ℚ) = (0 : ℚ) from by norm_num]
  simp only [jsDiv, if_true]
  rw [if_neg (by norm_num : ¬(10 : ℚ) = 0), if_pos (by norm_num : (0 : ℚ) < 10)]

lemma jsEvalPrim_3 : jsEvalPrim "3" = .ok (JsNum.fin 3) := by
  rw [show jsEvalPrim "3" = .ok (JsNum.fin ((digitsVal ['3'] : ℕ) : ℚ)) from rfl,
    show digitsVal ['3'] = 3 from rfl, show ((3 : ℕ) : ℚ) = (3 : ℚ) from by norm_num]

/-- C3: when the evaluation primitive returns `Infinity`, `-Infinity`
or `NaN`, `calculate` fails with the Math error and leaves the buffer
unreplaced; in particular `"10/0"` (whose primitive value is
`Infinity`) yields Failure(MathError). -/
theorem C3_div_zero_math_error (evalPrim : String → Except Unit JsNum) (e : String)
    (r : JsNum) (h1 : e ≠ "") (h2 : allowedOk (normalizeExpression e) = true)
    (h3 : evalPrim (stripTrailingOp (normalizeExpression e)) = .ok r)
    (h4 : r = JsNum.pinf ∨ r = JsNum.ninf ∨ r = JsNum.nan) :
    calculate evalPrim e = (e, some CalcError.mathError) ∧
    calculate jsEvalPrim "10/0" = ("10/0", some CalcError.mathError) := by
  have hgen : ∀ (ep : String → Except Unit JsNum) (x : String) (rr : JsNum),
      x ≠ "" → allowedOk (normalizeExpression x) = true →
      ep (stripTrailingOp (normalizeExpression x)) = .ok rr →
      (rr = JsNum.pinf ∨ rr = JsNum.ninf ∨ rr = JsNum.nan) →
      calculate ep x = (x, some CalcError.mathError) := by
    intro ep x rr hx hall hep hr
    unfold calculate
    rw [if_neg hx, if_neg (by simp [hall]), hep]
    rcases hr with rfl | rfl | rfl <;> rfl
  refine ⟨hgen evalPrim e r h1 h2 h3 h4, ?_⟩
  refine hgen jsEvalPrim "10/0" JsNum.pinf (by decide) (by decide) ?_ (Or.inl rfl)
  rw [show stripTrailingOp (normalizeExpression "10/0") = "10/0" from by decide]
  exact jsEvalPrim_10div0

/-- C3 witness: `"10/0"` itself. -/
theorem C3_witness : calculate jsEvalPrim "10/0" = ("10/0", some CalcError.mathError) :=
  (C3_div_zero_math_error jsEvalPrim "10/0" JsNum.pinf (by decide) (by decide)
    (by rw [show stripTrailingOp (normalizeExpression "10/0") = "10/0" from by decide]
        exact jsEvalPrim_10div0)
    (Or.inl rfl)).1

/-- C4 counterexample: `"2^"` ends in the single hanging operator `^`,
yet evaluation fails with the generic error — normalization first turns
`^` into `**`, the strip removes only one `*`, and `"2*"` is a syntax
error for the primitive. -/
theorem C4_counterexample :
    calculate jsEvalPrim "2^" = ("2^", some CalcError.genericError) := rfl

/-- C4 (amended): `evaluate()` on `"3+"` yields Success(3); one
trailing operator character is stripped from the normalized text, so a
single hanging `*`, `+`, `-`, `/` or `%` never causes a failure (a
hanging `^`, by contrast, becomes `**` before the single-character
strip and fails). -/
theorem C4_strip_amended (evalPrim : String → Except Unit JsNum) (t : String)
    (c : Char) (q : ℚ) (hc : c ∈ (['*', '+', '-', '/', '%'] : List Char))
    (hnorm : normalizeExpression (t ++ (⟨[c]⟩ : String)) = t ++ ⟨[c]⟩)
    (hallow : allowedOk (t ++ (⟨[c]⟩ : String)) = true)
    (hval : evalPrim t = .ok (JsNum.fin q)) :
    calculate evalPrim (t ++ (⟨[c]⟩ : String)) = (formatResult q, none) ∧
    calculate jsEvalPrim "3+" = ("3", none) := by
  constructor
  · have hne : t ++ (⟨[c]⟩ : String) ≠ "" := by
      intro h0
      have h1 := congrArg String.data h0
      simp [String.data_append] at h1
    have hcs : c ∈ stripOps := by fin_cases hc <;> decide
    unfold calculate
    rw [if_neg hne, hnorm, if_neg (by simp [hallow]),
      stripTrailingOp_concat t c hcs, hval]
  · unfold calculate
    rw [if_neg (show ¬("3+" : String) = "" from by decide),
      if_neg (show ¬(allowedOk (normalizeExpression "3+") = false) from by decide),
      show stripTrailingOp (normalizeExpression "3+") = "3" from by decide,
      jsEvalPrim_3]
    show (formatResult (3 : ℚ), (none : Option CalcError)) = ("3", none)
    rw [show (3 : ℚ) = ((3 : ℕ) : ℚ) from by norm_num, formatResult_natCast]
    rfl

/-- C4 witness: the `"3+"` instance through the general strip rule. -/
theorem C4_witness : calculate jsEvalPrim "3+" = (formatResult 3, none) :=
  (C4_strip_amended jsEvalPrim "3" '+' 3 (by decide) (by decide) (by decide)
    jsEvalPrim_3).1

/-- C10 witness. -/
theorem C10_witness :
    splitTrailing "5-3" = ("5", "-3") ∧ negateLastNumber "5-3" = "53" :=
  C10_trailing_sign_split "5" "3" (by decide) (by decide)

/-! ## Correctness of the decimal printer (for C9) -/

lemma isDigit_digitChar (d : ℕ) : (digitChar d).isDigit = true := by
  unfold digitChar
  split_ifs <;> decide

lemma digitVal_digitChar {d : ℕ} (h : d < 10) : digitVal (digitChar d) = d := by
  interval_cases d <;> rfl

lemma digitChar_ne_zero {d : ℕ} (h2 : d ≠ 0) (h1 : d < 10) : digitChar d ≠ '0' := by
  interval_cases d
  · exact absurd rfl h2
  all_goals decide

lemma digitChar_ne_dot (d : ℕ) : digitChar d ≠ '.' := by
  unfold digitChar
  split_ifs <;> decide

lemma natDigits_isDigit : ∀ (f n : ℕ), ∀ c ∈ natDigits f n, c.isDigit = true
  | 0, _ => by simp [natDigits]
  | f + 1, n => by
    intro c hc
    unfold natDigits at hc
    by_cases h0 : n = 0
    · simp [h0] at hc
    · rw [if_neg h0] at hc
      rcases List.mem_append.mp hc with hc | hc
      · exact natDigits_isDigit f (n / 10) c hc
      · rcases List.mem_singleton.mp hc with rfl
        exact isDigit_digitChar _

lemma digitsVal_concat (l : List Char) (c : Char) :
    digitsVal (l ++ [c]) = 10 * digitsVal l + digitVal c := by
  unfold digitsVal
  rw [List.foldl_append]
  rfl

lemma natDigits_val : ∀ (f n : ℕ), n ≤ f → digitsVal (natDigits f n) = n
  | 0, n, h => by
    interval_cases n
    rfl
  | f + 1, n, h => by
    unfold natDigits
    by_cases h0 : n = 0
    · simp [h0, digitsVal]
    · rw [if_neg h0, digitsVal_concat,
        natDigits_val f (n / 10) (by omega),
        digitVal_digitChar (Nat.mod_lt n (by norm_num))]
      omega

lemma natDigits_len : ∀ (f n m : ℕ), n < 10 ^ m → (natDigits f n).length ≤ m
  | 0, _, m, _ => by simp [natDigits]
  | f + 1, n, m, h => by
    unfold natDigits
    by_cases h0 : n = 0
    · simp [h0]
    · rw [if_neg h0]
      have hm : m ≠ 0 := by
        intro h1
        rw [h1] at h
        omega
      have hrec : n / 10 < 10 ^ (m - 1) := by
        have h2 : 10 ^ m = 10 ^ (m - 1) * 10 := by
          rw [← pow_succ]
          congr 1
          omega
        rw [Nat.div_lt_iff_lt_mul (by norm_num)]
        omega
      have := natDigits_len f (n / 10) (m - 1) hrec
      simp only [List.length_append, List.length_singleton]
      omega

lemma natDigits_getLast (f n : ℕ) (h1 : n ≠ 0) (h2 : n ≤ f) :
    (natDigits f n).getLast? = some (digitChar (n % 10)) := by
  cases f with
  | zero => omega
  | succ f =>
    unfold natDigits
    rw [if_neg h1, List.getLast?_concat]

lemma natToString_data_digits (n : ℕ) :
    ∀ c ∈ (natToString n).data, c.isDigit = true := by
  unfold natToString
  split_ifs with h
  · intro c hc
    rcases List.mem_singleton.mp hc with rfl
    decide
  · exact natDigits_isDigit (n + 1) n

lemma natToString_data_ne_nil (n : ℕ) : (natToString n).data ≠ [] := by
  unfold natToString
  split_ifs with h
  · decide
  · cases n with
    | zero => exact absurd rfl h
    | succ m =>
      show natDigits (m + 1 + 1) (m + 1) ≠ []
      unfold natDigits
      rw [if_neg h]
      simp

lemma natToString_val (n : ℕ) : digitsVal (natToString n).data = n := by
  unfold natToString
  split_ifs with h
  · rw [h]
    rfl
  · exact natDigits_val (n + 1) n (by omega)

lemma natToString_getLast (n : ℕ) (h : n ≠ 0) :
    (natToString n).data.getLast? = some (digitChar (n % 10)) := by
  unfold natToString
  rw [if_neg h]
  exact natDigits_getLast (n + 1) n h (by omega)

lemma natToString_no_dot (n : ℕ) : '.' ∉ (natToString n).data := by
  intro hc
  have := natToString_data_digits n '.' hc
  exact absurd this (by decide)

lemma parseUnsigned_digits (A : List Char) (hA : ∀ c ∈ A, c.isDigit = true)
    (hne : A ≠ []) : parseUnsigned A = some ((digitsVal A : ℚ)) := by
  unfold parseUnsigned
  rw [List.takeWhile_eq_self_iff.mpr hA, List.dropWhile_eq_nil_iff.mpr hA,
    show fracPart [] = [] from rfl, if_neg (by simp [hne])]
  norm_num [digitsVal]

lemma parseUnsigned_dot (A B : List Char) (hA : ∀ c ∈ A, c.isDigit = true)
    (hB : ∀ c ∈ B, c.isDigit = true) (hne : A ≠ []) :
    parseUnsigned (A ++ '.' :: B) =
      some ((digitsVal A : ℚ) + (digitsVal B : ℚ) / 10 ^ B.length) := by
  unfold parseUnsigned
  rw [takeWhile_all_append _ hA, dropWhile_all_append _ hA,
    List.takeWhile_cons_of_neg (by decide : ¬('.'.isDigit = true)),
    List.dropWhile_cons_of_neg (by decide : ¬('.'.isDigit = true)),
    List.append_nil,
    show fracPart ('.' :: B) = B.takeWhile Char.isDigit from rfl,
    List.takeWhile_eq_self_iff.mpr hB,
    if_neg (by simp [hne])]

lemma parseTok_unsigned (s : String) (h : ∀ r, s.data ≠ '-' :: r) :
    parseTok s = parseUnsigned s.data := by
  unfold parseTok
  split
  · next r heq => exact absurd heq (h r)
  · rfl

lemma parseTok_signed (s : String) (r : List Char) (h : s.data = '-' :: r) :
    parseTok s = (parseUnsigned r).map (fun q => -q) := by
  unfold parseTok
  split
  · next r2 heq =>
    rw [h] at heq
    rw [List.cons.injEq] at heq
    rw [heq.2]
  · next hno => exact absurd h (hno r)

lemma find10ExpAux_spec : ∀ (fuel den k0 m : ℕ), den ∣ 10 ^ m → k0 ≤ m →
    m ≤ k0 + fuel →
    den ∣ 10 ^ (find10ExpAux fuel den k0) ∧ find10ExpAux fuel den k0 ≤ m ∧
      ∀ j, k0 ≤ j → j < find10ExpAux fuel den k0 → ¬ den ∣ 10 ^ j
  | 0, den, k0, m, hdvd, h1, h2 => by
    have : m = k0 := by omega
    subst this
    exact ⟨by simpa [find10ExpAux] using hdvd, by simp [find10ExpAux],
      fun j hj1 hj2 => by simp [find10ExpAux] at hj2; omega⟩
  | fuel + 1, den, k0, m, hdvd, h1, h2 => by
    unfold find10ExpAux
    by_cases h0 : den ∣ 10 ^ k0
    · rw [if_pos h0]
      exact ⟨h0, h1, fun j hj1 hj2 => by omega⟩
    · rw [if_neg h0]
      have hk0 : k0 ≠ m := by
        intro h3
        subst h3
        exact h0 hdvd
      obtain ⟨ha, hb, hc⟩ :=
        find10ExpAux_spec fuel den (k0 + 1) m hdvd (by omega) (by omega)
      refine ⟨ha, hb, fun j hj1 hj2 => ?_⟩
      by_cases hj : j = k0
      · subst hj
        exact h0
      · exact hc j (by omega) hj2

lemma find10Exp_spec (den m : ℕ) (hdvd : den ∣ 10 ^ m) (hm : m ≤ 400) :
    den ∣ 10 ^ (find10Exp den) ∧ find10Exp den ≤ m ∧
      ∀ j, j < find10Exp den → ¬ den ∣ 10 ^ j := by
  obtain ⟨ha, hb, hc⟩ := find10ExpAux_spec 400 den 0 m hdvd (by omega) (by omega)
  exact ⟨ha, hb, fun j hj => hc j (by omega) hj⟩

lemma rat_mul_pow_int (q : ℚ) (k : ℕ) (hdvd : q.den ∣ 10 ^ k) :
    ∃ z : ℤ, q * 10 ^ k = (z : ℚ) := by
  obtain ⟨c, hc⟩ := hdvd
  refine ⟨q.num * (c : ℤ), ?_⟩
  have h1 : ((10 : ℚ) ^ k) = ((q.den * c : ℕ) : ℚ) := by
    rw [← hc]
    push_cast
    ring
  calc q * 10 ^ k = q * (q.den : ℚ) * (c : ℚ) := by rw [h1]; push_cast; ring
    _ = (q.num : ℚ) * (c : ℚ) := by rw [Rat.mul_den_eq_num]
    _ = ((q.num * (c : ℤ) : ℤ) : ℚ) := by push_cast; ring

lemma rat_den_dvd_of_int (q : ℚ) (j : ℕ) (z : ℤ) (h : q * 10 ^ j = (z : ℚ)) :
    q.den ∣ 10 ^ j := by
  have h10 : ((10 : ℚ) ^ j) ≠ 0 := by positivity
  have hq : q = (z : ℚ) / ((10 ^ j : ℤ) : ℚ) := by
    rw [eq_div_iff (by push_cast; positivity)]
    push_cast
    exact h
  have h2 : q = Rat.divInt z (10 ^ j : ℤ) := by
    rw [Rat.divInt_eq_div, hq]
  have h3 : (q.den : ℤ) ∣ (10 ^ j : ℤ) := by
    rw [h2]
    exact Rat.den_dvd z (10 ^ j : ℤ)
  have h4 : ((10 : ℤ) ^ j) = ((10 ^ j : ℕ) : ℤ) := by push_cast; ring
  rw [h4] at h3
  exact_mod_cast h3

lemma foldl_zeros (l : List Char) :
    ∀ j, List.foldl (fun n c => 10 * n + digitVal c) 0 (List.replicate j '0' ++ l) =
      List.foldl (fun n c => 10 * n + digitVal c) 0 l
  | 0 => rfl
  | j + 1 => by
    rw [List.replicate_succ, List.cons_append, List.foldl_cons]
    exact foldl_zeros l j

lemma digitsVal_replicate_zero (j : ℕ) (l : List Char) :
    digitsVal (List.replicate j '0' ++ l) = digitsVal l :=
  foldl_zeros l j

lemma padLeftZeros_data (s : String) (k : ℕ) :
    (padLeftZeros s k).data = List.replicate (k - s.length) '0' ++ s.data := by
  unfold padLeftZeros
  simp [String.data_append]

/-- Full correctness of the positive-case decimal printer: the output
re-parses to the input, contains only digits and at most one dot, the
dot appears exactly for non-integers, and the last character of a
fractional rendering is a nonzero digit. -/
lemma ratToStringPos_correct (q : ℚ) (m : ℕ) (hq : 0 ≤ q) (hm : m ≤ 400)
    (hdvd : q.den ∣ 10 ^ m) :
    parseUnsigned (ratToStringPos q).data = some q ∧
    (∀ c ∈ (ratToStringPos q).data, c.isDigit = true ∨ c = '.') ∧
    (ratToStringPos q).data ≠ [] ∧
    (q.den = 1 → '.' ∉ (ratToStringPos q).data) ∧
    (q.den ≠ 1 → '.' ∈ (ratToStringPos q).data ∧
      ∃ d, (ratToStringPos q).data.getLast? = some d ∧
        d.isDigit = true ∧ d ≠ '0') := by
  obtain ⟨hk_dvd, hk_le, hk_min⟩ := find10Exp_spec q.den m hdvd hm
  by_cases h0 : find10Exp q.den = 0
  · -- integer case
    have hden1 : q.den = 1 := by
      rw [h0] at hk_dvd
      simpa using hk_dvd
    have hnum : ((q.num.toNat : ℕ) : ℚ) = q := by
      have h1 : (0 : ℤ) ≤ q.num := Rat.num_nonneg.mpr hq
      have h2 : ((q.num.toNat : ℕ) : ℤ) = q.num := Int.toNat_of_nonneg h1
      have h3 : ((q.num : ℤ) : ℚ) = q := by
        conv_rhs => rw [← Rat.num_div_den q]
        rw [hden1]
        simp
      rw [← h3]
      exact_mod_cast congrArg (fun z : ℤ => (z : ℚ)) h2
    have hout : ratToStringPos q = natToString q.num.toNat := by
      unfold ratToStringPos
      rw [h0, if_pos rfl]
    rw [hout]
    refine ⟨?_, ?_, natToString_data_ne_nil _, fun _ => natToString_no_dot _, ?_⟩
    · rw [parseUnsigned_digits _ (natToString_data_digits _) (natToString_data_ne_nil _),
        natToString_val, hnum]
    · exact fun c hc => Or.inl (natToString_data_digits _ c hc)
    · exact fun hden => absurd hden1 hden
  · -- fractional case
    have hden1 : q.den ≠ 1 := by
      intro hd
      exact hk_min 0 (by omega) (by rw [hd]; simp)
    obtain ⟨z, hz⟩ := rat_mul_pow_int q (find10Exp q.den) hk_dvd
    have hz0 : 0 ≤ z := by
      have h1 : (0 : ℚ) ≤ (z : ℚ) := by
        rw [← hz]
        positivity
      exact_mod_cast h1
    have hzn : q * 10 ^ (find10Exp q.den) = ((z.toNat : ℕ) : ℚ) := by
      rw [hz]
      exact_mod_cast (congrArg (fun w : ℤ => (w : ℚ)) (Int.toNat_of_nonneg hz0)).symm
    have hnum : (q * 10 ^ (find10Exp q.den)).num.toNat = z.toNat := by
      rw [hz, Rat.num_intCast]
    set k := find10Exp q.den with hkdef
    set n := z.toNat with hndef
    have hfne : n % 10 ≠ 0 := by
      intro hmod
      obtain ⟨n2, hn2⟩ := Nat.dvd_iff_mod_eq_zero.mpr hmod
      have hpow : (10 : ℚ) ^ (k - 1) * 10 = 10 ^ k := by
        rw [← pow_succ]
        congr 1
        omega
      have h1 : q * 10 ^ (k - 1) * 10 = ((n2 : ℚ)) * 10 := by
        calc q * 10 ^ (k - 1) * 10 = q * (10 ^ (k - 1) * 10) := by ring
          _ = q * 10 ^ k := by rw [hpow]
          _ = (n : ℚ) := hzn
          _ = ((n2 : ℚ)) * 10 := by rw [hn2]; push_cast; ring
      have hq2 : q * 10 ^ (k - 1) = ((n2 : ℤ) : ℚ) := by
        have h2 := mul_right_cancel₀ (by norm_num : (10 : ℚ) ≠ 0) h1
        rw [h2]
        push_cast
        rfl
      have := rat_den_dvd_of_int q (k - 1) (n2 : ℤ) hq2
      exact hk_min (k - 1) (by omega) this
    have hout : ratToStringPos q = natToString (n / 10 ^ k) ++ "." ++
        padLeftZeros (natToString (n % 10 ^ k)) k := by
      unfold ratToStringPos
      rw [← hkdef, if_neg h0, hnum]
    -- names for the pieces
    have hfmod : n % 10 ^ k % 10 = n % 10 :=
      Nat.mod_mod_of_dvd n (dvd_pow_self 10 h0)
    have hf0 : n % 10 ^ k ≠ 0 := by
      intro hc
      rw [hc] at hfmod
      exact hfne hfmod.symm
    have hflt : n % 10 ^ k < 10 ^ k := Nat.mod_lt n (by positivity)
    have hfdigitslen : (natToString (n % 10 ^ k)).data.length ≤ k := by
      unfold natToString
      rw [if_neg hf0]
      exact natDigits_len _ _ _ hflt
    have hBdata : (padLeftZeros (natToString (n % 10 ^ k)) k).data =
        List.replicate (k - (natToString (n % 10 ^ k)).length) '0' ++
          (natToString (n % 10 ^ k)).data := padLeftZeros_data _ _
    have hslen : (natToString (n % 10 ^ k)).length =
        (natToString (n % 10 ^ k)).data.length := rfl
    have hBlen : (padLeftZeros (natToString (n % 10 ^ k)) k).data.length = k := by
      rw [hBdata, List.length_append, List.length_replicate, ← hslen]
      rw [hslen]
      omega
    have hBne : (padLeftZeros (natToString (n % 10 ^ k)) k).data ≠ [] := by
      intro hc
      rw [hc] at hBlen
      exact h0 hBlen.symm
    have hBdigits : ∀ c ∈ (padLeftZeros (natToString (n % 10 ^ k)) k).data,
        c.isDigit = true := by
      intro c hc
      rw [hBdata] at hc
      rcases List.mem_append.mp hc with hc | hc
      · rw [List.eq_of_mem_replicate hc]
        decide
      · exact natToString_data_digits _ c hc
    have hBval : digitsVal (padLeftZeros (natToString (n % 10 ^ k)) k).data =
        n % 10 ^ k := by
      rw [hBdata, digitsVal_replicate_zero, natToString_val]
    have hBlast : (padLeftZeros (natToString (n % 10 ^ k)) k).data.getLast? =
        some (digitChar (n % 10)) := by
      rw [hBdata, List.getLast?_append, natToString_getLast _ hf0, hfmod]
      rfl
    have hdata : (natToString (n / 10 ^ k) ++ "." ++
        padLeftZeros (natToString (n % 10 ^ k)) k).data =
        (natToString (n / 10 ^ k)).data ++
          '.' :: (padLeftZeros (natToString (n % 10 ^ k)) k).data := by
      simp only [String.data_append, List.append_assoc]
      rfl
    have h10q : ((10 : ℚ) ^ k) ≠ 0 := by positivity
    have hval : ((digitsVal (natToString (n / 10 ^ k)).data : ℚ) +
        (digitsVal (padLeftZeros (natToString (n % 10 ^ k)) k).data : ℚ) /
          10 ^ (padLeftZeros (natToString (n % 10 ^ k)) k).data.length) = q := by
      rw [natToString_val, hBval, hBlen]
      have hnk : 10 ^ k * (n / 10 ^ k) + n % 10 ^ k = n := Nat.div_add_mod n (10 ^ k)
      have hcast : ((10 : ℚ) ^ k) * ((n / 10 ^ k : ℕ) : ℚ) + ((n % 10 ^ k : ℕ) : ℚ) =
          ((n : ℕ) : ℚ) := by
        exact_mod_cast congrArg (fun x : ℕ => (x : ℚ)) hnk
      have h2 : (((n / 10 ^ k : ℕ) : ℚ) + ((n % 10 ^ k : ℕ) : ℚ) / 10 ^ k) * 10 ^ k =
          q * 10 ^ k := by
        rw [hzn, add_mul, div_mul_cancel₀ _ h10q, ← hcast]
        ring
      exact mul_right_cancel₀ h10q h2
    rw [hout]
    refine ⟨?_, ?_, ?_, fun hden => absurd hden hden1, fun _ => ⟨?_, ?_⟩⟩
    · rw [hdata, parseUnsigned_dot _ _ (natToString_data_digits _) hBdigits
        (natToString_data_ne_nil _), hval]
    · intro c hc
      rw [hdata] at hc
      rcases List.mem_append.mp hc with hc | hc
      · exact Or.inl (natToString_data_digits _ c hc)
      · rcases List.mem_cons.mp hc with rfl | hc
        · exact Or.inr rfl
        · exact Or.inl (hBdigits c hc)
    · rw [hdata]
      simp
    · rw [hdata]
      exact List.mem_append.mpr (Or.inr (List.mem_cons_self _ _))
    · refine ⟨digitChar (n % 10), ?_, isDigit_digitChar _, ?_⟩
      · rw [hdata, List.getLast?_append]
        have h3 : ('.' :: (padLeftZeros (natToString (n % 10 ^ k)) k).data).getLast? =
            some (digitChar (n % 10)) := by
          rw [show ('.' :: (padLeftZeros (natToString (n % 10 ^ k)) k).data) =
            ['.'] ++ (padLeftZeros (natToString (n % 10 ^ k)) k).data from rfl,
            List.getLast?_append, hBlast]
          rfl
        rw [h3]
        rfl
      · exact digitChar_ne_zero hfne (Nat.mod_lt n (by norm_num))

/-- Sign-aware correctness of the `toString` model. -/
lemma ratToString_correct (q : ℚ) (m : ℕ) (hm : m ≤ 400) (hdvd : q.den ∣ 10 ^ m) :
    parseTok (ratToString q) = some q ∧
    (q.den = 1 → '.' ∉ (ratToString q).data) ∧
    ('.' ∈ (ratToString q).data →
      ∃ d, (ratToString q).data.getLast? = some d ∧ d.isDigit = true ∧ d ≠ '0') := by
  by_cases hneg : q < 0
  · have hq : (0 : ℚ) ≤ -q := by linarith
    have hden : (-q).den = q.den := Rat.neg_den q
    obtain ⟨hp, hmem, hne, hdot1, hdot2⟩ :=
      ratToStringPos_correct (-q) m hq hm (by rw [hden]; exact hdvd)
    have hout : ratToString q = "-" ++ ratToStringPos (-q) := by
      unfold ratToString
      rw [if_pos hneg]
    have hdata : (ratToString q).data = '-' :: (ratToStringPos (-q)).data := by
      rw [hout]
      simp only [String.data_append]
      rfl
    refine ⟨?_, ?_, ?_⟩
    · rw [parseTok_signed _ _ hdata, hp]
      simp
    · intro h1
      rw [hdata]
      intro hc
      rcases List.mem_cons.mp hc with hc | hc
      · exact absurd hc (by decide)
      · exact hdot1 (by rw [hden]; exact h1) hc
    · intro hc
      rw [hdata] at hc
      have hc2 : '.' ∈ (ratToStringPos (-q)).data := by
        rcases List.mem_cons.mp hc with hc | hc
        · exact absurd hc (by decide)
        · exact hc
      have hden1 : (-q).den ≠ 1 := by
        intro h1
        exact hdot1 h1 hc2
      obtain ⟨-, d, hd1, hd2, hd3⟩ := hdot2 hden1
      refine ⟨d, ?_, hd2, hd3⟩
      rw [hdata, show ('-' :: (ratToStringPos (-q)).data) =
        ['-'] ++ (ratToStringPos (-q)).data from rfl, List.getLast?_append, hd1]
      rfl
  · have hq : (0 : ℚ) ≤ q := by linarith
    obtain ⟨hp, hmem, hne, hdot1, hdot2⟩ := ratToStringPos_correct q m hq hm hdvd
    have hout : ratToString q = ratToStringPos q := by
      unfold ratToString
      rw [if_neg hneg]
    have hnosign : ∀ r, (ratToStringPos q).data ≠ '-' :: r := by
      intro r hr
      have hmem2 : '-' ∈ (ratToStringPos q).data := by
        rw [hr]
        exact List.mem_cons_self _ _
      rcases hmem '-' hmem2 with h | h
      · exact absurd h (by decide)
      · exact absurd h (by decide)
    refine ⟨?_, ?_, ?_⟩
    · rw [hout, parseTok_unsigned _ hnosign, hp]
    · intro h1
      rw [hout]
      exact hdot1 h1
    · intro hc
      rw [hout] at hc
      have hden1 : q.den ≠ 1 := by
        intro h1
        exact hdot1 h1 hc
      obtain ⟨-, d, hd1, hd2, hd3⟩ := hdot2 hden1
      rw [hout]
      exact ⟨d, hd1, hd2, hd3⟩

lemma round12_den_dvd (x : ℚ) : (round12 x).den ∣ 10 ^ 12 := by
  apply rat_den_dvd_of_int (round12 x) 12 ⌊x * 10 ^ 12 + 1 / 2⌋
  unfold round12
  rw [div_mul_cancel₀]
  positivity

/-- C9: the Result Formatter renders a mathematical integer without a
decimal point and a non-integer as the 12-place rounded value; the
rendered text re-parses exactly to the value it was produced from, and
a fractional rendering never ends in an insignificant zero or a bare
decimal point. -/
theorem C9_format_round_trip (n : ℚ) :
    (n.den = 1 → formatResult n = ratToString n ∧ '.' ∉ (formatResult n).data ∧
      parseTok (formatResult n) = some n) ∧
    (n.den ≠ 1 → formatResult n = ratToString (round12 n) ∧
      parseTok (formatResult n) = some (round12 n)) ∧
    ('.' ∈ (formatResult n).data →
      ∃ d, (formatResult n).data.getLast? = some d ∧ d.isDigit = true ∧ d ≠ '0') := by
  by_cases hden : n.den = 1
  · have hout : formatResult n = ratToString n := by
      unfold formatResult
      rw [if_pos hden]
    obtain ⟨hp, hnd, hdot⟩ :=
      ratToString_correct n 0 (by omega) (by rw [hden]; simp)
    rw [hout]
    exact ⟨fun _ => ⟨rfl, hnd hden, hp⟩, fun hcon => absurd hden hcon, hdot⟩
  · have hout : formatResult n = ratToString (round12 n) := by
      unfold formatResult
      rw [if_neg hden]
    obtain ⟨hp, hnd, hdot⟩ :=
      ratToString_correct (round12 n) 12 (by omega) (round12_den_dvd n)
    rw [hout]
    exact ⟨fun hcon => absurd hcon hden, fun _ => ⟨rfl, hp⟩, hdot⟩

/-- C9 witness: the non-integer `3/2`. -/
theorem C9_witness :
    formatResult (3 / 2) = ratToString (round12 (3 / 2)) ∧
    parseTok (formatResult (3 / 2)) = some (round12 (3 / 2)) :=
  (C9_format_round_trip (3 / 2)).2.1 (by norm_num)

end DynCalc
